import Mathlib

/-!
Verification of the gene functional-analysis pipeline
(`scripts/functional_analysis.py`).

The script is a four-stage sequential pipeline: read a gene list, validate
and normalise the identifiers against the MyGene.info lookup service,
run a g:Profiler enrichment query, and export dataframes to files.

Shallow embedding conventions used here:

* A MyGene.info per-query response entry (a Python dict) is modelled by
  `QueryResult`: `notfound = none` means the `'notfound'` key is absent,
  `notfound = some b` means the key is present and `b` is the Python
  truthiness of its value; `symbol = some s` means the `'symbol'` key is
  present with value `s`.
* The network is modelled by an oracle `mq : List String → QueryOutcome`
  giving, for each issued batch query, either the completed response list
  (`QueryOutcome.ok`) or a raised exception (`QueryOutcome.exn`).
* A Python dict with `String` keys and values is an insertion-ordered
  association list; `dictInsert` updates in place (keeping the original
  position of an existing key, as CPython does) or appends.
* `sys.exit(code)` is the `RunResult.exited code` outcome; a normal return
  of `v` is `RunResult.returned v`.
* The g:Profiler result dataframe is a `List Row`; `ProfileOutcome.ok none`
  models `gp.profile` returning `None`, and an exception is
  `ProfileOutcome.exn`.  The significance value is kept as an opaque string
  cell: the script never computes with it, it only passes it through.
* File output is modelled as the list of `(file name, content)` pairs the
  export stage writes, in order.
* The input file content handled by `leer_genes` is a `List Char`;
  `pySplitAny` and `pyStrip` give Python `str.split(sep)` / `str.strip()`
  semantics.
-/

/-- One entry of a MyGene.info `querymany` response (`results['out']`).
`notfound`: `none` if the `'notfound'` key is absent, otherwise the
truthiness of its value.  `symbol`: the `'symbol'` field if present. -/
structure QueryResult where
  notfound : Option Bool
  symbol : Option String
deriving DecidableEq, Repr

/-- Outcome of one `mg.querymany(...)` call: the completed response list, or
a raised exception. -/
inductive QueryOutcome where
  | ok (out : List QueryResult)
  | exn
deriving DecidableEq, Repr

/-- One row of the g:Profiler result dataframe (source database, term id,
term name, significance value kept as an opaque cell). -/
structure Row where
  source : String
  native : String
  term_name : String
  p_value : String
deriving DecidableEq, Repr

/-- Outcome of the `gp.profile(...)` call: an exception, or a returned value
that is either `None` or a dataframe. -/
inductive ProfileOutcome where
  | exn
  | ok (res : Option (List Row))
deriving DecidableEq, Repr

/-- Either `sys.exit code` or a normal return. -/
inductive RunResult (α : Type) where
  | exited (code : Nat)
  | returned (val : α)
deriving DecidableEq, Repr

/-- Insertion-ordered string dictionary, as CPython dicts behave. -/
abbrev Dict := List (String × String)

/-- `d[k] = v`: replace the value in place if `k` is already a key
(keeping its position), otherwise append the new pair. -/
def dictInsert (d : Dict) (k v : String) : Dict :=
  if d.any (fun p => p.1 = k) then
    d.map (fun p => if p.1 = k then (k, v) else p)
  else d ++ [(k, v)]

/-- `d.get(k)`: value of the first (hence unique, in a real dict) pair with
key `k`. -/
def dictLookup (d : Dict) (k : String) : Option String :=
  (d.find? (fun p => p.1 = k)).map Prod.snd

/-- Fold a list of pairs into a dictionary by repeated `dictInsert`. -/
def insertAll (d : Dict) (qs : List (String × String)) : Dict :=
  qs.foldl (fun d q => dictInsert d q.1 q.2) d

/-- `{g: g for g in genes}` (functional_analysis.py line 147). -/
def selfDict (genes : List String) : Dict :=
  genes.foldl (fun d g => dictInsert d g g) []

/-- Return value of `validar_y_convertir_genes` (lines 218-223). -/
structure ValidacionInfo where
  validos : List String
  mapping : Dict
  no_encontrados : List String
  advertencias : List String
deriving DecidableEq, Repr

/-- State of the first response-processing loop (lines 152-171):
`(genes_validos, mapping, genes_a_reintentar)`. -/
abbrev St1 := List String × Dict × List String

/-- One iteration of the first loop (lines 159-171): a result whose
`'notfound'` key is present and truthy sends the gene to the retry list;
otherwise a present `'symbol'` validates it; otherwise (ambiguous or
incomplete result) it is retried. -/
def paso1 : St1 → String × QueryResult → St1
  | (v, m, t), (g, ⟨some true, _⟩) => (v, m, t ++ [g])
  | (v, m, t), (g, ⟨_, some s⟩) => (v ++ [s], dictInsert m g s, t)
  | (v, m, t), (g, ⟨_, none⟩) => (v, m, t ++ [g])

/-- The first loop over `zip(genes, results['out'])` (line 159). -/
def primeraPasadaAux (st : St1) : List (String × QueryResult) → St1
  | [] => st
  | p :: ps => primeraPasadaAux (paso1 st p) ps

/-- Warning string appended for a definitively unresolved gene
(lines 198 and 204). -/
def msgOf (g : String) : String := "Gen no encontrado: '" ++ g ++ "'"

/-- State of the retry-processing loop (lines 189-198):
`(genes_validos, mapping, no_encontrados, advertencias)`. -/
abbrev St2 := List String × Dict × List String × List String

/-- One iteration of the retry loop (lines 189-198): success iff
`'notfound' not in result_mt and 'symbol' in result_mt`. -/
def paso2 : St2 → String × QueryResult → St2
  | (v, m, ne, ad), (g, ⟨none, some s⟩) => (v ++ [s], dictInsert m g s, ne, ad)
  | (v, m, ne, ad), (g, _) => (v, m, ne ++ [g], ad ++ [msgOf g])

/-- The retry loop over `zip(genes_a_reintentar, variantes_mt, results_mt['out'])`
(line 189); `variantes_mt` is not read inside the loop body. -/
def segundaPasadaAux (st : St2) : List (String × QueryResult) → St2
  | [] => st
  | p :: ps => segundaPasadaAux (paso2 st p) ps

/-- `variantes_mt = [f"MT-{gene}" for gene in genes_a_reintentar]` (line 178). -/
def variantesMT (retry : List String) : List String :=
  retry.map (fun g => "MT-" ++ g)

/-- `validar_y_convertir_genes` (lines 90-223), with the MyGene.info network
modelled by the oracle `mq`.  An exception on the first query returns all
inputs unvalidated (lines 142-150); otherwise the two loops run, an
exception on the retry query sends every retried gene to `no_encontrados`
(lines 200-204), and an empty validated list exits with code 1 (lines
212-214). -/
def validar_y_convertir_genes (genes : List String)
    (mq : List String → QueryOutcome) : RunResult ValidacionInfo :=
  match mq genes with
  | .exn =>
      .returned ⟨genes, selfDict genes, [],
        ["No se pudo validar genes (sin conexión)"]⟩
  | .ok out1 =>
      let st1 := primeraPasadaAux ([], [], []) (genes.zip out1)
      let retry := st1.2.2
      let st2 : St2 :=
        if retry.isEmpty then (st1.1, st1.2.1, [], [])
        else
          match mq (variantesMT retry) with
          | .exn => (st1.1, st1.2.1, retry, retry.map msgOf)
          | .ok out2 => segundaPasadaAux (st1.1, st1.2.1, [], []) (retry.zip out2)
      if st2.1.isEmpty then .exited 1
      else .returned ⟨st2.1, st2.2.1, st2.2.2.1, st2.2.2.2⟩

/-- The batch queries `validar_y_convertir_genes` actually issues to
MyGene.info, in order: always the full input list (line 135), then the
`MT-` variants when the retry list is non-empty (line 181). -/
def consultasRealizadas (genes : List String)
    (mq : List String → QueryOutcome) : List (List String) :=
  match mq genes with
  | .exn => [genes]
  | .ok out1 =>
      let retry := (primeraPasadaAux ([], [], []) (genes.zip out1)).2.2
      if retry.isEmpty then [genes] else [genes, variantesMT retry]

/-- `analizar_genes` (lines 226-283): the g:Profiler result is passed through
unchanged when it is a non-empty dataframe, and replaced by an empty
dataframe when the call raises, returns `None`, or returns an empty frame. -/
def analizar_genes (resp : ProfileOutcome) : List Row :=
  match resp with
  | .exn => []
  | .ok none => []
  | .ok (some resultados) => if resultados.isEmpty then [] else resultados

/-- One row of `validacion_genes.csv` (lines 311-328). -/
structure ValRow where
  gen_input : String
  gen_validado : String
  estado : String
  notas : String
deriving DecidableEq, Repr

/-- The validation rows: one `valido` row per mapping entry, then one
`no_encontrado` row per unresolved gene (lines 318-328). -/
def valRows (info : ValidacionInfo) : List ValRow :=
  info.mapping.map (fun p =>
    ⟨p.1, p.2, "valido",
      if p.1 = p.2 then "Validado" else "Convertido de " ++ p.1⟩)
  ++ info.no_encontrados.map (fun g =>
    ⟨g, "NA", "no_encontrado", "Gen no encontrado en MyGene.info"⟩)

/-- Content of one written output file. -/
inductive FileContent where
  | validation (rows : List ValRow)
  | table (rows : List Row)
deriving DecidableEq, Repr

/-- The per-database export table (lines 352-356). -/
def bases_datos : List (String × String) :=
  [("GO:BP", "GO_BP_resultados.csv"),
   ("KEGG", "KEGG_resultados.csv"),
   ("REAC", "REAC_resultados.csv")]

/-- `exportar_resultados` (lines 286-368) as the ordered list of files it
writes: the validation CSV always; if the dataframe is empty the function
returns right after it (lines 336-339); otherwise the combined CSV and
Excel files, then one CSV per source database that has at least one row
(lines 358-365). -/
def exportar_resultados (df : List Row) (validacion_info : ValidacionInfo) :
    List (String × FileContent) :=
  let valFile := ("validacion_genes.csv", FileContent.validation (valRows validacion_info))
  if df.isEmpty then [valFile]
  else
    [valFile,
     ("resultados_completos.csv", FileContent.table df),
     ("resultados_completos.xlsx", FileContent.table df)]
    ++ bases_datos.filterMap (fun sf =>
        let dfs := df.filter (fun r => r.source = sf.1)
        if dfs.isEmpty then none else some (sf.2, FileContent.table dfs))

/-- The pipeline of `main` after argument parsing (lines 412-430): validate,
analyse, export.  The returned value records the gene set handed to the
enrichment query (`validacion['validos']`, line 420-423) and the files
written by the export stage. -/
def mainRun (genes_input : List String) (mq : List String → QueryOutcome)
    (resp : ProfileOutcome) :
    RunResult (List String × List (String × FileContent)) :=
  match validar_y_convertir_genes genes_input mq with
  | .exited c => .exited c
  | .returned validacion =>
      let resultados := analizar_genes resp
      .returned (validacion.validos, exportar_resultados resultados validacion)

/-- Characters stripped by Python `str.strip()`. -/
def isPySpace (c : Char) : Bool :=
  c = ' ' || c = '\t' || c = '\n' || c = '\r' || c = '\x0b' || c = '\x0c'

/-- Python `str.strip()` on a character list. -/
def pyStrip (l : List Char) : List Char :=
  ((l.dropWhile isPySpace).reverse.dropWhile isPySpace).reverse

/-- Prepend a character to the first piece of a split (helper for
`pySplitAny`). -/
def consHead (c : Char) : List (List Char) → List (List Char)
  | [] => [[c]]
  | t :: ts => (c :: t) :: ts

/-- Split on every character satisfying `p`, keeping empty pieces, as
Python `str.split(sep)` does for a one-character separator. -/
def pySplitAny (p : Char → Bool) : List Char → List (List Char)
  | [] => [[]]
  | c :: rest =>
      if p c then [] :: pySplitAny p rest
      else consHead c (pySplitAny p rest)

/-- Python `s.split(sep)` for a single-character separator. -/
def pySplit (sep : Char) (l : List Char) : List (List Char) :=
  pySplitAny (fun c => c = sep) l

/-- `leer_genes` (lines 40-87) applied to the file content it read: if the
content contains a comma, newlines are first replaced by commas and the
content is split on commas (line 73); otherwise it is split on newlines
(line 77).  Tokens are stripped and empty ones dropped in both cases. -/
def leer_genes (contenido : List Char) : List (List Char) :=
  if contenido.contains ',' then
    ((pySplit ','
        (contenido.map (fun c => if c = '\n' then ',' else c))).map pyStrip).filter
      (fun t => !t.isEmpty)
  else
    ((pySplit '\n' contenido).map pyStrip).filter (fun t => !t.isEmpty)

/-- The symbol the first loop resolves a response entry to, if any:
`none` exactly when the entry sends its gene to the retry list. -/
def resolved1 (r : QueryResult) : Option String :=
  match r with
  | ⟨some true, _⟩ => none
  | ⟨_, s⟩ => s

/-- The symbol the retry loop resolves a response entry to, if any:
`some` exactly when `'notfound'` is absent and `'symbol'` is present. -/
def resolved2 (r : QueryResult) : Option String :=
  match r with
  | ⟨none, some s⟩ => some s
  | _ => none

/-- Symbols appended to `genes_validos` by the first loop. -/
def sym1 (ps : List (String × QueryResult)) : List String :=
  ps.filterMap (fun p => resolved1 p.2)

/-- Pairs inserted into `mapping` by the first loop. -/
def pairs1 (ps : List (String × QueryResult)) : List (String × String) :=
  ps.filterMap (fun p => (resolved1 p.2).map (fun s => (p.1, s)))

/-- The retry list produced by the first loop. -/
def retryOf (ps : List (String × QueryResult)) : List String :=
  ps.filterMap (fun p => if (resolved1 p.2).isSome then none else some p.1)

/-- Symbols appended to `genes_validos` by the retry loop. -/
def sym2 (ps : List (String × QueryResult)) : List String :=
  ps.filterMap (fun p => resolved2 p.2)

/-- Pairs inserted into `mapping` by the retry loop. -/
def pairs2 (ps : List (String × QueryResult)) : List (String × String) :=
  ps.filterMap (fun p => (resolved2 p.2).map (fun s => (p.1, s)))

/-- Genes the retry loop adds to `no_encontrados`. -/
def fails2 (ps : List (String × QueryResult)) : List String :=
  ps.filterMap (fun p => if (resolved2 p.2).isSome then none else some p.1)

/-- Keys of a dictionary, in order. -/
def keys (d : Dict) : List String := d.map Prod.fst

/-- Raw command line, before parsing: which of the four options were
supplied. -/
structure CmdArgs where
  input : Option String
  genes : Option (List String)
  output : Option String
  organism : Option String
deriving DecidableEq, Repr

/-- Parsed command line. -/
structure ParsedArgs where
  input : Option String
  genes : Option (List String)
  output : String
  organism : String
deriving DecidableEq, Repr

/-- The argparse configuration of `main` (lines 400-408): `-i` (`--input`)
and `-g` (`--genes`) form a required mutually exclusive group; `-o`
(`--output`) defaults to `results` and `-org` (`--organism`) defaults to
`hsapiens`.  This
definition transcribes that declarative configuration (the parsing
machinery itself lives in the Python standard library). -/
def parse_args (a : CmdArgs) : Except String ParsedArgs :=
  match a.input, a.genes with
  | some _, some _ =>
      Except.error "argument -g/--genes: not allowed with argument -i/--input"
  | none, none =>
      Except.error "one of the arguments -i/--input -g/--genes is required"
  | _, _ =>
      Except.ok ⟨a.input, a.genes, a.output.getD "results", a.organism.getD "hsapiens"⟩

/-- An oracle whose first query always raises (MyGene.info unreachable). -/
def mqExn : List String → QueryOutcome := fun _ => QueryOutcome.exn

/-- An oracle that resolves every queried identifier to itself. -/
def mqResuelve : List String → QueryOutcome :=
  fun qs => QueryOutcome.ok (qs.map (fun g => ⟨none, some g⟩))

/-- Responses for the C1 counterexample: the duplicated input `A` gets one
found entry (symbol `S`) and one not-found entry, and `MT-A` is not found
either. -/
def mqC1 : List String → QueryOutcome := fun qs =>
  if qs = ["A", "A"] then
    QueryOutcome.ok [⟨none, some "S"⟩, ⟨some true, none⟩]
  else if qs = ["MT-A"] then QueryOutcome.ok [⟨some true, none⟩]
  else QueryOutcome.exn

/-- Responses for the C1 witness: `G1` resolves directly to `SYM1`, `G2`
only via its `MT-` variant. -/
def mqC1w : List String → QueryOutcome := fun qs =>
  if qs = ["G1", "G2"] then
    QueryOutcome.ok [⟨none, some "SYM1"⟩, ⟨some true, none⟩]
  else if qs = ["MT-G2"] then QueryOutcome.ok [⟨none, some "MT-G2"⟩]
  else QueryOutcome.exn

/-- Responses for the C3 witness: `G1` resolves directly, `G2` resolves in
neither pass. -/
def mqC3w : List String → QueryOutcome := fun qs =>
  if qs = ["G1", "G2"] then
    QueryOutcome.ok [⟨none, some "SYM1"⟩, ⟨some true, none⟩]
  else if qs = ["MT-G2"] then QueryOutcome.ok [⟨some true, none⟩]
  else QueryOutcome.exn

/-- Responses for the C4 witness: `ND1` is not found directly and `MT-ND1`
resolves to the symbol `MT-ND1`. -/
def mqC4w : List String → QueryOutcome := fun qs =>
  if qs = ["ND1"] then QueryOutcome.ok [⟨some true, none⟩]
  else if qs = ["MT-ND1"] then QueryOutcome.ok [⟨none, some "MT-ND1"⟩]
  else QueryOutcome.exn

/-- A one-row enrichment dataframe whose only source is `GO:BP`. -/
def dfGO : List Row := [⟨"GO:BP", "GO:0008150", "biological_process", "0.01"⟩]

/-- A two-row enrichment dataframe with one `GO:BP` row and one `KEGG`
row. -/
def dfGOKEGG : List Row :=
  [⟨"GO:BP", "GO:0008150", "biological_process", "0.01"⟩,
   ⟨"KEGG", "KEGG:00190", "Oxidative phosphorylation", "0.002"⟩]

/-! ### Characterisation of the two response-processing loops -/

theorem primera_char (ps : List (String × QueryResult)) :
    ∀ st : St1, primeraPasadaAux st ps =
      (st.1 ++ sym1 ps, insertAll st.2.1 (pairs1 ps), st.2.2 ++ retryOf ps) := by
  induction ps with
  | nil =>
      intro st
      simp [primeraPasadaAux, sym1, pairs1, retryOf, insertAll]
  | cons p ps ih =>
      intro st
      obtain ⟨g, nf, sy⟩ := p
      obtain ⟨v, m, t⟩ := st
      rcases nf with _ | b
      · rcases sy with _ | s <;>
          simp [primeraPasadaAux, paso1, sym1, pairs1, retryOf, resolved1,
            insertAll, ih, List.filterMap_cons]
      · rcases b with _ | _ <;> rcases sy with _ | s <;>
          simp [primeraPasadaAux, paso1, sym1, pairs1, retryOf, resolved1,
            insertAll, ih, List.filterMap_cons]

theorem segunda_char (ps : List (String × QueryResult)) :
    ∀ st : St2, segundaPasadaAux st ps =
      (st.1 ++ sym2 ps, insertAll st.2.1 (pairs2 ps),
       st.2.2.1 ++ fails2 ps, st.2.2.2 ++ (fails2 ps).map msgOf) := by
  induction ps with
  | nil =>
      intro st
      simp [segundaPasadaAux, sym2, pairs2, fails2, insertAll]
  | cons p ps ih =>
      intro st
      obtain ⟨g, nf, sy⟩ := p
      obtain ⟨v, m, ne, ad⟩ := st
      rcases nf with _ | b
      · rcases sy with _ | s <;>
          simp [segundaPasadaAux, paso2, sym2, pairs2, fails2, resolved2,
            insertAll, ih, List.filterMap_cons]
      · rcases sy with _ | s <;>
          simp [segundaPasadaAux, paso2, sym2, pairs2, fails2, resolved2,
            insertAll, ih, List.filterMap_cons]

/-! ### Dictionary lemmas -/

theorem dictInsert_of_notMem {d : Dict} {k : String} (v : String)
    (h : k ∉ keys d) : dictInsert d k v = d ++ [(k, v)] := by
  have hany : d.any (fun p => p.1 = k) = false := by
    simp only [List.any_eq_false, decide_eq_true_eq]
    intro p hp hpk
    exact h (hpk ▸ List.mem_map_of_mem Prod.fst hp)
  simp [dictInsert, hany]

theorem insertAll_eq_append :
    ∀ (qs : List (String × String)) (d : Dict),
      (∀ q ∈ qs, q.1 ∉ keys d) → (qs.map Prod.fst).Nodup →
      insertAll d qs = d ++ qs := by
  intro qs
  induction qs with
  | nil => intro d _ _; simp [insertAll]
  | cons q qs ih =>
      intro d hd hn
      obtain ⟨k, v⟩ := q
      have hk : k ∉ keys d := hd (k, v) (List.mem_cons_self _ _)
      have step : insertAll d ((k, v) :: qs) = insertAll (d ++ [(k, v)]) qs := by
        simp [insertAll, dictInsert_of_notMem v hk]
      have hn' := List.nodup_cons.mp (show (k :: qs.map Prod.fst).Nodup from hn)
      rw [step, ih (d ++ [(k, v)])]
      · simp
      · intro q hq hmem
        simp only [keys, List.map_append, List.mem_append, List.map_cons,
          List.map_nil, List.mem_singleton] at hmem
        rcases hmem with hmem | hmem
        · exact hd q (List.mem_cons_of_mem _ hq) hmem
        · exact hn'.1 (hmem ▸ List.mem_map_of_mem Prod.fst hq)
      · exact hn'.2

theorem dictLookup_mem {d : Dict} {k v : String}
    (h : dictLookup d k = some v) : (k, v) ∈ d := by
  induction d with
  | nil => simp [dictLookup] at h
  | cons p d ih =>
      by_cases hk : p.1 = k
      · rw [dictLookup, List.find?_cons_of_pos _ (by simpa using hk)] at h
        simp only [Option.map_some'] at h
        have : (k, v) = p := by
          obtain ⟨p1, p2⟩ := p
          simp only at hk
          rw [Option.some_inj] at h
          simp only at h
          rw [hk, h]
        rw [this]
        exact List.mem_cons_self _ _
      · rw [dictLookup, List.find?_cons_of_neg _ (by simpa using hk)] at h
        exact List.mem_cons_of_mem _ (ih h)

theorem dictLookup_eq_none {d : Dict} {k : String} :
    dictLookup d k = none ↔ k ∉ keys d := by
  induction d with
  | nil => simp [dictLookup, keys]
  | cons p d ih =>
      have hkeys : keys (p :: d) = p.1 :: keys d := rfl
      by_cases hk : p.1 = k
      · rw [dictLookup, List.find?_cons_of_pos _ (by simpa using hk), hkeys]
        simp [hk]
      · rw [dictLookup, List.find?_cons_of_neg _ (by simpa using hk)]
        have hrest : Option.map Prod.snd (List.find? (fun p => p.1 = k) d) =
            dictLookup d k := rfl
        rw [hrest, ih, hkeys]
        constructor
        · intro h hc
          rcases List.mem_cons.mp hc with he | hc2
          · exact hk he.symm
          · exact h hc2
        · exact fun h hc => h (List.mem_cons_of_mem _ hc)

theorem dictLookup_of_mem_of_nodup {d : Dict} {k v : String}
    (hn : (keys d).Nodup) (h : (k, v) ∈ d) : dictLookup d k = some v := by
  induction d with
  | nil => simp at h
  | cons p d ih =>
      have hn' := List.nodup_cons.mp
        (show (p.1 :: d.map Prod.fst).Nodup from hn)
      rcases List.mem_cons.mp h with he | hm
      · rw [dictLookup, List.find?_cons_of_pos _ (by simp [← he]), ← he]
        rfl
      · have hk : p.1 ≠ k := by
          intro he2
          exact hn'.1 (he2 ▸ List.mem_map_of_mem Prod.fst hm)
        rw [dictLookup, List.find?_cons_of_neg _ (by simpa using hk)]
        have hrest : Option.map Prod.snd (List.find? (fun p => p.1 = k) d) =
            dictLookup d k := rfl
        rw [hrest]
        exact ih hn'.2 hm

/-! ### Zip and sublist helpers -/

theorem zip_mem_of_mem {α β : Type} {l1 : List α} {l2 : List β} {a : α}
    (h : l2.length = l1.length) (ha : a ∈ l1) : ∃ b, (a, b) ∈ l1.zip l2 := by
  induction l1 generalizing l2 with
  | nil => simp at ha
  | cons x l1 ih =>
      cases l2 with
      | nil => simp at h
      | cons y l2 =>
          rcases List.mem_cons.mp ha with he | hm
          · exact ⟨y, by simp [he]⟩
          · obtain ⟨b, hb⟩ := ih (by simpa using h) hm
            exact ⟨b, List.mem_cons_of_mem _ hb⟩

theorem zip_mem_fst {α β : Type} {l1 : List α} {l2 : List β} {a : α} {b : β}
    (h : (a, b) ∈ l1.zip l2) : a ∈ l1 :=
  (List.of_mem_zip h).1

theorem zip_mem_uniq {α β : Type} {l1 : List α} {l2 : List β}
    {a : α} {b b' : β} (hnd : l1.Nodup)
    (h : (a, b) ∈ l1.zip l2) (h' : (a, b') ∈ l1.zip l2) : b = b' := by
  induction l1 generalizing l2 with
  | nil => simp at h
  | cons x l1 ih =>
      cases l2 with
      | nil => simp at h
      | cons y l2 =>
          have hnd' := List.nodup_cons.mp hnd
          rcases List.mem_cons.mp h with he | hm
          · rcases List.mem_cons.mp h' with he' | hm'
            · rw [Prod.mk.injEq] at he he'
              rw [he.2, he'.2]
            · rw [Prod.mk.injEq] at he
              exact absurd (he.1 ▸ zip_mem_fst hm') hnd'.1
          · rcases List.mem_cons.mp h' with he' | hm'
            · rw [Prod.mk.injEq] at he'
              exact absurd (he'.1 ▸ zip_mem_fst hm) hnd'.1
            · exact ih hnd'.2 hm hm'

theorem retryOf_sublist (ps : List (String × QueryResult)) :
    List.Sublist (retryOf ps) (ps.map Prod.fst) := by
  induction ps with
  | nil => simp [retryOf]
  | cons p ps ih =>
      rcases hres : resolved1 p.2 with _ | s
      · have hstep : retryOf (p :: ps) = p.1 :: retryOf ps := by
          simp [retryOf, List.filterMap_cons, hres]
        rw [hstep, List.map_cons]
        exact ih.cons₂ p.1
      · have hstep : retryOf (p :: ps) = retryOf ps := by
          simp [retryOf, List.filterMap_cons, hres]
        rw [hstep, List.map_cons]
        exact ih.cons p.1

theorem keys_pairs1_sublist (ps : List (String × QueryResult)) :
    List.Sublist (keys (pairs1 ps)) (ps.map Prod.fst) := by
  induction ps with
  | nil => simp [pairs1, keys]
  | cons p ps ih =>
      rcases hres : resolved1 p.2 with _ | s
      · have hstep : keys (pairs1 (p :: ps)) = keys (pairs1 ps) := by
          simp [pairs1, keys, List.filterMap_cons, hres]
        rw [hstep, List.map_cons]
        exact ih.cons p.1
      · have hstep : keys (pairs1 (p :: ps)) = p.1 :: keys (pairs1 ps) := by
          simp [pairs1, keys, List.filterMap_cons, hres]
        rw [hstep, List.map_cons]
        exact ih.cons₂ p.1

theorem keys_pairs2_sublist (ps : List (String × QueryResult)) :
    List.Sublist (keys (pairs2 ps)) (ps.map Prod.fst) := by
  induction ps with
  | nil => simp [pairs2, keys]
  | cons p ps ih =>
      rcases hres : resolved2 p.2 with _ | s
      · have hstep : keys (pairs2 (p :: ps)) = keys (pairs2 ps) := by
          simp [pairs2, keys, List.filterMap_cons, hres]
        rw [hstep, List.map_cons]
        exact ih.cons p.1
      · have hstep : keys (pairs2 (p :: ps)) = p.1 :: keys (pairs2 ps) := by
          simp [pairs2, keys, List.filterMap_cons, hres]
        rw [hstep, List.map_cons]
        exact ih.cons₂ p.1

theorem fails2_sublist (ps : List (String × QueryResult)) :
    List.Sublist (fails2 ps) (ps.map Prod.fst) := by
  induction ps with
  | nil => simp [fails2]
  | cons p ps ih =>
      rcases hres : resolved2 p.2 with _ | s
      · have hstep : fails2 (p :: ps) = p.1 :: fails2 ps := by
          simp [fails2, List.filterMap_cons, hres]
        rw [hstep, List.map_cons]
        exact ih.cons₂ p.1
      · have hstep : fails2 (p :: ps) = fails2 ps := by
          simp [fails2, List.filterMap_cons, hres]
        rw [hstep, List.map_cons]
        exact ih.cons p.1

/-! ### Membership characterisations -/

theorem mem_retryOf {ps : List (String × QueryResult)} {g : String} :
    g ∈ retryOf ps ↔ ∃ r, (g, r) ∈ ps ∧ resolved1 r = none := by
  simp only [retryOf, List.mem_filterMap]
  constructor
  · rintro ⟨⟨g', r⟩, hp, hcond⟩
    rcases hres : resolved1 r with _ | s
    · rw [hres] at hcond
      simp at hcond
      exact ⟨r, hcond ▸ hp, hres⟩
    · rw [hres] at hcond
      simp at hcond
  · rintro ⟨r, hp, hres⟩
    exact ⟨(g, r), hp, by simp [hres]⟩

theorem mem_fails2 {ps : List (String × QueryResult)} {g : String} :
    g ∈ fails2 ps ↔ ∃ r, (g, r) ∈ ps ∧ resolved2 r = none := by
  simp only [fails2, List.mem_filterMap]
  constructor
  · rintro ⟨⟨g', r⟩, hp, hcond⟩
    rcases hres : resolved2 r with _ | s
    · rw [hres] at hcond
      simp at hcond
      exact ⟨r, hcond ▸ hp, hres⟩
    · rw [hres] at hcond
      simp at hcond
  · rintro ⟨r, hp, hres⟩
    exact ⟨(g, r), hp, by simp [hres]⟩

theorem mem_pairs1 {ps : List (String × QueryResult)} {g s : String} :
    (g, s) ∈ pairs1 ps ↔ ∃ r, (g, r) ∈ ps ∧ resolved1 r = some s := by
  simp only [pairs1, List.mem_filterMap]
  constructor
  · rintro ⟨⟨g', r⟩, hp, hcond⟩
    simp only [Option.map_eq_some'] at hcond
    obtain ⟨s', hs', heq⟩ := hcond
    have e := Prod.ext_iff.mp heq
    simp only at e
    exact ⟨r, e.1 ▸ hp, by rw [hs', e.2]⟩
  · rintro ⟨r, hp, hres⟩
    exact ⟨(g, r), hp, by simp [hres]⟩

theorem mem_pairs2 {ps : List (String × QueryResult)} {g s : String} :
    (g, s) ∈ pairs2 ps ↔ ∃ r, (g, r) ∈ ps ∧ resolved2 r = some s := by
  simp only [pairs2, List.mem_filterMap]
  constructor
  · rintro ⟨⟨g', r⟩, hp, hcond⟩
    simp only [Option.map_eq_some'] at hcond
    obtain ⟨s', hs', heq⟩ := hcond
    have e := Prod.ext_iff.mp heq
    simp only at e
    exact ⟨r, e.1 ▸ hp, by rw [hs', e.2]⟩
  · rintro ⟨r, hp, hres⟩
    exact ⟨(g, r), hp, by simp [hres]⟩

theorem mem_keys_pairs1 {ps : List (String × QueryResult)} {g : String} :
    g ∈ keys (pairs1 ps) ↔ ∃ r s, (g, r) ∈ ps ∧ resolved1 r = some s := by
  simp only [keys, List.mem_map]
  constructor
  · rintro ⟨⟨g', s⟩, hp, heq⟩
    simp only at heq
    obtain ⟨r, hr, hres⟩ := mem_pairs1.mp (heq ▸ hp)
    exact ⟨r, s, hr, hres⟩
  · rintro ⟨r, s, hp, hres⟩
    exact ⟨(g, s), mem_pairs1.mpr ⟨r, hp, hres⟩, rfl⟩

theorem mem_keys_pairs2 {ps : List (String × QueryResult)} {g : String} :
    g ∈ keys (pairs2 ps) ↔ ∃ r s, (g, r) ∈ ps ∧ resolved2 r = some s := by
  simp only [keys, List.mem_map]
  constructor
  · rintro ⟨⟨g', s⟩, hp, heq⟩
    simp only at heq
    obtain ⟨r, hr, hres⟩ := mem_pairs2.mp (heq ▸ hp)
    exact ⟨r, s, hr, hres⟩
  · rintro ⟨r, s, hp, hres⟩
    exact ⟨(g, s), mem_pairs2.mpr ⟨r, hp, hres⟩, rfl⟩

theorem mem_sym1_of_pairs1 {ps : List (String × QueryResult)} {g s : String}
    (h : (g, s) ∈ pairs1 ps) : s ∈ sym1 ps := by
  obtain ⟨r, hp, hres⟩ := mem_pairs1.mp h
  simp only [sym1, List.mem_filterMap]
  exact ⟨(g, r), hp, hres⟩

theorem mem_sym2_of_pairs2 {ps : List (String × QueryResult)} {g s : String}
    (h : (g, s) ∈ pairs2 ps) : s ∈ sym2 ps := by
  obtain ⟨r, hp, hres⟩ := mem_pairs2.mp h
  simp only [sym2, List.mem_filterMap]
  exact ⟨(g, r), hp, hres⟩

/-! ### Master description of a run with completed lookups -/

theorem validar_ok (genes : List String) (mq : List String → QueryOutcome)
    (out1 out2 : List QueryResult)
    (hm1 : mq genes = QueryOutcome.ok out1)
    (hm2 : mq (variantesMT (retryOf (genes.zip out1))) = QueryOutcome.ok out2)
    (h2 : out2.length = (retryOf (genes.zip out1)).length) :
    validar_y_convertir_genes genes mq =
      if (sym1 (genes.zip out1) ++ sym2 ((retryOf (genes.zip out1)).zip out2)).isEmpty
      then RunResult.exited 1
      else RunResult.returned
        ⟨sym1 (genes.zip out1) ++ sym2 ((retryOf (genes.zip out1)).zip out2),
         insertAll (insertAll [] (pairs1 (genes.zip out1)))
           (pairs2 ((retryOf (genes.zip out1)).zip out2)),
         fails2 ((retryOf (genes.zip out1)).zip out2),
         (fails2 ((retryOf (genes.zip out1)).zip out2)).map msgOf⟩ := by
  have hst1 : primeraPasadaAux ([], [], []) (genes.zip out1)
      = (sym1 (genes.zip out1), insertAll [] (pairs1 (genes.zip out1)),
         retryOf (genes.zip out1)) := by
    simpa using primera_char (genes.zip out1) ([], [], [])
  by_cases hretry : retryOf (genes.zip out1) = []
  · have hout2 : out2 = [] := by
      rw [hretry] at h2
      exact List.length_eq_zero.mp h2
    subst hout2
    simp only [validar_y_convertir_genes, hm1, hst1, hretry]
    simp [sym2, pairs2, fails2, insertAll]
  · have hst2 := segunda_char ((retryOf (genes.zip out1)).zip out2)
      (sym1 (genes.zip out1), insertAll [] (pairs1 (genes.zip out1)), [], [])
    have hcond : (retryOf (genes.zip out1)).isEmpty = false := by
      simpa using hretry
    simp only [validar_y_convertir_genes, hm1, hst1, hcond, hm2, hst2]
    simp

theorem validar_returned_inv (genes : List String) (mq : List String → QueryOutcome)
    (out1 out2 : List QueryResult) (info : ValidacionInfo)
    (hm1 : mq genes = QueryOutcome.ok out1)
    (hm2 : mq (variantesMT (retryOf (genes.zip out1))) = QueryOutcome.ok out2)
    (h2 : out2.length = (retryOf (genes.zip out1)).length)
    (hres : validar_y_convertir_genes genes mq = RunResult.returned info) :
    info.validos = sym1 (genes.zip out1) ++ sym2 ((retryOf (genes.zip out1)).zip out2) ∧
    info.mapping = insertAll (insertAll [] (pairs1 (genes.zip out1)))
      (pairs2 ((retryOf (genes.zip out1)).zip out2)) ∧
    info.no_encontrados = fails2 ((retryOf (genes.zip out1)).zip out2) ∧
    info.advertencias = (fails2 ((retryOf (genes.zip out1)).zip out2)).map msgOf ∧
    sym1 (genes.zip out1) ++ sym2 ((retryOf (genes.zip out1)).zip out2) ≠ [] := by
  rw [validar_ok genes mq out1 out2 hm1 hm2 h2] at hres
  obtain ⟨V, M, NE, AD⟩ := info
  cases hV : (sym1 (genes.zip out1) ++
      sym2 ((retryOf (genes.zip out1)).zip out2)).isEmpty
  · rw [hV] at hres
    simp only [Bool.false_eq_true, if_false, RunResult.returned.injEq,
      ValidacionInfo.mk.injEq] at hres
    obtain ⟨e1, e2, e3, e4⟩ := hres
    refine ⟨e1.symm, e2.symm, e3.symm, e4.symm, ?_⟩
    intro hnil
    rw [hnil] at hV
    simp at hV
  · rw [hV] at hres
    simp at hres

theorem validar_exited_iff (genes : List String) (mq : List String → QueryOutcome)
    (out1 out2 : List QueryResult)
    (hm1 : mq genes = QueryOutcome.ok out1)
    (hm2 : mq (variantesMT (retryOf (genes.zip out1))) = QueryOutcome.ok out2)
    (h2 : out2.length = (retryOf (genes.zip out1)).length) :
    validar_y_convertir_genes genes mq = RunResult.exited 1 ↔
      sym1 (genes.zip out1) ++ sym2 ((retryOf (genes.zip out1)).zip out2) = [] := by
  rw [validar_ok genes mq out1 out2 hm1 hm2 h2]
  cases hV : (sym1 (genes.zip out1) ++
      sym2 ((retryOf (genes.zip out1)).zip out2)).isEmpty
  · have hne : ¬(sym1 (genes.zip out1) ++
        sym2 ((retryOf (genes.zip out1)).zip out2) = []) := by
      intro h
      rw [h] at hV
      simp at hV
    simp [hne]
  · have hnil := List.isEmpty_iff.mp hV
    simp [hnil]

theorem mapping_struct (genes : List String) (out1 out2 : List QueryResult)
    (hnd : genes.Nodup) (h1 : out1.length = genes.length)
    (h2 : out2.length = (retryOf (genes.zip out1)).length) :
    insertAll (insertAll [] (pairs1 (genes.zip out1)))
        (pairs2 ((retryOf (genes.zip out1)).zip out2))
      = pairs1 (genes.zip out1) ++ pairs2 ((retryOf (genes.zip out1)).zip out2) ∧
    (keys (pairs1 (genes.zip out1) ++
        pairs2 ((retryOf (genes.zip out1)).zip out2))).Nodup := by
  have hfst1 : (genes.zip out1).map Prod.fst = genes :=
    List.map_fst_zip genes out1 (le_of_eq h1.symm)
  have hfst2 : ((retryOf (genes.zip out1)).zip out2).map Prod.fst
      = retryOf (genes.zip out1) :=
    List.map_fst_zip _ out2 (le_of_eq h2.symm)
  have hZ1nd : ((genes.zip out1).map Prod.fst).Nodup := by
    rw [hfst1]; exact hnd
  have hretrynd : (retryOf (genes.zip out1)).Nodup :=
    List.Nodup.sublist (retryOf_sublist _) hZ1nd
  have hZ2nd : (((retryOf (genes.zip out1)).zip out2).map Prod.fst).Nodup := by
    rw [hfst2]; exact hretrynd
  have hk1nd : (keys (pairs1 (genes.zip out1))).Nodup :=
    List.Nodup.sublist (keys_pairs1_sublist _) hZ1nd
  have hk2nd : (keys (pairs2 ((retryOf (genes.zip out1)).zip out2))).Nodup :=
    List.Nodup.sublist (keys_pairs2_sublist _) hZ2nd
  have hdisj : ∀ g ∈ keys (pairs2 ((retryOf (genes.zip out1)).zip out2)),
      g ∉ keys (pairs1 (genes.zip out1)) := by
    intro g hg2 hg1
    obtain ⟨r2, s2, hgr2, _⟩ := mem_keys_pairs2.mp hg2
    obtain ⟨r, s, hgr, hres1⟩ := mem_keys_pairs1.mp hg1
    have hgret : g ∈ retryOf (genes.zip out1) := by
      have := zip_mem_fst hgr2
      exact this
    obtain ⟨r', hgr', hres1'⟩ := mem_retryOf.mp hgret
    have heq : r = r' := zip_mem_uniq hnd hgr hgr'
    rw [heq, hres1'] at hres1
    exact Option.noConfusion hres1
  have hstep1 : insertAll [] (pairs1 (genes.zip out1)) = pairs1 (genes.zip out1) := by
    have := insertAll_eq_append (pairs1 (genes.zip out1)) []
      (by intro q _ hq; simp [keys] at hq) hk1nd
    simpa using this
  have hstep2 : insertAll (pairs1 (genes.zip out1))
      (pairs2 ((retryOf (genes.zip out1)).zip out2))
      = pairs1 (genes.zip out1) ++ pairs2 ((retryOf (genes.zip out1)).zip out2) := by
    apply insertAll_eq_append
    · intro q hq
      exact hdisj q.1 (List.mem_map_of_mem Prod.fst hq)
    · exact hk2nd
  constructor
  · rw [hstep1, hstep2]
  · rw [show keys (pairs1 (genes.zip out1) ++
        pairs2 ((retryOf (genes.zip out1)).zip out2))
        = keys (pairs1 (genes.zip out1)) ++
          keys (pairs2 ((retryOf (genes.zip out1)).zip out2)) by
      simp [keys]]
    exact List.Nodup.append hk1nd hk2nd (fun a ha1 ha2 => hdisj a ha2 ha1)

/-! ### Python strip and split lemmas -/

theorem dropWhile_eq_self_of_head {p : Char → Bool} {l : List Char}
    (h : ∀ w : l ≠ [], p (l.head w) = false) : l.dropWhile p = l := by
  cases l with
  | nil => rfl
  | cons c t =>
      have hc : p c = false := by simpa using h (by simp)
      simp [List.dropWhile_cons, hc]

theorem dropWhile_dropWhile (p : Char → Bool) (l : List Char) :
    (l.dropWhile p).dropWhile p = l.dropWhile p :=
  dropWhile_eq_self_of_head (fun w => List.head_dropWhile_not p l w)

theorem pyStrip_head (l : List Char) {c : Char} {X : List Char}
    (hX : pyStrip l = c :: X) : isPySpace c = false := by
  obtain ⟨t, ht⟩ :=
    List.dropWhile_suffix (l := (l.dropWhile isPySpace).reverse) isPySpace
  have hd : pyStrip l ++ t.reverse = l.dropWhile isPySpace := by
    have := congrArg List.reverse ht
    simpa [pyStrip, List.reverse_append] using this
  have hdc : l.dropWhile isPySpace = c :: (X ++ t.reverse) := by
    rw [← hd, hX]
    simp
  have hnot := List.head?_dropWhile_not isPySpace l
  rw [hdc] at hnot
  simpa using hnot

theorem pyStrip_dropWhile (l : List Char) :
    (pyStrip l).dropWhile isPySpace = pyStrip l := by
  cases hX : pyStrip l with
  | nil => simp
  | cons c X =>
      have hc := pyStrip_head l hX
      simp [List.dropWhile_cons, hc]

theorem pyStrip_idem (l : List Char) : pyStrip (pyStrip l) = pyStrip l := by
  show (((pyStrip l).dropWhile isPySpace).reverse.dropWhile isPySpace).reverse
      = pyStrip l
  rw [pyStrip_dropWhile]
  have h2 : (pyStrip l).reverse
      = (l.dropWhile isPySpace).reverse.dropWhile isPySpace := by
    simp [pyStrip]
  rw [h2, dropWhile_dropWhile]
  simp [pyStrip]

theorem pySplitAny_map_comma (l : List Char) :
    pySplitAny (fun c => c = ',') (l.map (fun c => if c = '\n' then ',' else c))
      = pySplitAny (fun c => c = ',' || c = '\n') l := by
  induction l with
  | nil => rfl
  | cons c t ih =>
      by_cases hn : c = '\n'
      · subst hn
        simp [pySplitAny, ih]
      · by_cases hc : c = ','
        · subst hc
          simp [pySplitAny, ih, hn]
        · simp [pySplitAny, ih, hn, hc]

theorem mem_strip_filter {ts : List (List Char)} {t : List Char}
    (ht : t ∈ (ts.map pyStrip).filter (fun t => !t.isEmpty)) :
    t ≠ [] ∧ pyStrip t = t := by
  have h1 := List.mem_filter.mp ht
  obtain ⟨x, _, hx⟩ := List.mem_map.mp h1.1
  constructor
  · intro hnil
    rw [hnil] at h1
    simp at h1
  · rw [← hx, pyStrip_idem]

/-! ### dictInsert lookup lemmas -/

theorem lookup_map_update {d : Dict} {k v : String} (hk : k ∈ keys d) :
    dictLookup (d.map (fun p => if p.1 = k then (k, v) else p)) k = some v := by
  induction d with
  | nil => simp [keys] at hk
  | cons p d ih =>
      by_cases hp : p.1 = k
      · simp only [List.map_cons, if_pos hp]
        rw [dictLookup, List.find?_cons_of_pos _ (by simp)]
        rfl
      · simp only [List.map_cons, if_neg hp]
        rw [dictLookup, List.find?_cons_of_neg _ (by simpa using hp)]
        have hk' : k ∈ keys d := by
          rcases List.mem_cons.mp (show k ∈ p.1 :: keys d from hk) with he | hm
          · exact absurd he.symm hp
          · exact hm
        exact ih hk'

theorem lookup_append_single {d : Dict} {k v : String} (hk : k ∉ keys d) :
    dictLookup (d ++ [(k, v)]) k = some v := by
  induction d with
  | nil =>
      rw [List.nil_append, dictLookup, List.find?_cons_of_pos _ (by simp)]
      rfl
  | cons p d ih =>
      have hp : ¬ p.1 = k := by
        intro he
        exact hk (show k ∈ p.1 :: keys d from he ▸ List.mem_cons_self p.1 (keys d))
      simp only [List.cons_append]
      rw [dictLookup, List.find?_cons_of_neg _ (by simpa using hp)]
      exact ih (fun hm => hk (List.mem_cons_of_mem _ hm))

theorem dictLookup_dictInsert_self (d : Dict) (k v : String) :
    dictLookup (dictInsert d k v) k = some v := by
  unfold dictInsert
  by_cases hk : k ∈ keys d
  · have hany : d.any (fun p => p.1 = k) = true := by
      simp only [List.any_eq_true, decide_eq_true_eq]
      obtain ⟨q, hq, hq1⟩ := List.mem_map.mp hk
      exact ⟨q, hq, hq1⟩
    rw [if_pos hany]
    exact lookup_map_update hk
  · have hany : d.any (fun p => p.1 = k) = false := by
      simp only [List.any_eq_false, decide_eq_true_eq]
      intro p hp hpk
      exact hk (hpk ▸ List.mem_map_of_mem Prod.fst hp)
    rw [if_neg (by simp [hany])]
    exact lookup_append_single hk

theorem lookup_map_update_other {k k' v : String} (hne : k' ≠ k) (d : Dict) :
    dictLookup (d.map (fun p => if p.1 = k then (k, v) else p)) k'
      = dictLookup d k' := by
  induction d with
  | nil => rfl
  | cons p d ih =>
      by_cases hp : p.1 = k
      · simp only [List.map_cons, if_pos hp]
        rw [dictLookup, List.find?_cons_of_neg _ (by simpa using Ne.symm hne),
          dictLookup, List.find?_cons_of_neg _ (by simp [hp]; exact Ne.symm hne)]
        exact ih
      · simp only [List.map_cons, if_neg hp]
        by_cases hpk' : p.1 = k'
        · rw [dictLookup, List.find?_cons_of_pos _ (by simpa using hpk'),
            dictLookup, List.find?_cons_of_pos _ (by simpa using hpk')]
        · rw [dictLookup, List.find?_cons_of_neg _ (by simpa using hpk'),
            dictLookup, List.find?_cons_of_neg _ (by simpa using hpk')]
          exact ih

theorem lookup_append_other {k k' v : String} (hne : k' ≠ k) (d : Dict) :
    dictLookup (d ++ [(k, v)]) k' = dictLookup d k' := by
  induction d with
  | nil =>
      rw [List.nil_append, dictLookup,
        List.find?_cons_of_neg _ (by simpa using Ne.symm hne)]
      rfl
  | cons p d ih =>
      simp only [List.cons_append]
      by_cases hpk' : p.1 = k'
      · rw [dictLookup, List.find?_cons_of_pos _ (by simpa using hpk'),
          dictLookup, List.find?_cons_of_pos _ (by simpa using hpk')]
      · rw [dictLookup, List.find?_cons_of_neg _ (by simpa using hpk'),
          dictLookup, List.find?_cons_of_neg _ (by simpa using hpk')]
        exact ih

theorem dictLookup_dictInsert_other {k k' : String} (hne : k' ≠ k)
    (d : Dict) (v : String) :
    dictLookup (dictInsert d k v) k' = dictLookup d k' := by
  unfold dictInsert
  by_cases hany : d.any (fun p => p.1 = k) = true
  · rw [if_pos hany]
    exact lookup_map_update_other hne d
  · rw [if_neg hany]
    exact lookup_append_other hne d

theorem selfDict_lookup_aux (gs : List String) :
    ∀ (d : Dict) (k : String), dictLookup d k = some k →
      dictLookup (gs.foldl (fun d g => dictInsert d g g) d) k = some k := by
  induction gs with
  | nil => intro d k h; exact h
  | cons g gs ih =>
      intro d k h
      simp only [List.foldl_cons]
      apply ih
      by_cases hg : k = g
      · subst hg
        exact dictLookup_dictInsert_self d k k
      · rw [dictLookup_dictInsert_other hg]
        exact h

theorem selfDict_lookup (genes : List String) (g : String) (hg : g ∈ genes) :
    dictLookup (selfDict genes) g = some g := by
  suffices h : ∀ (gs : List String) (d : Dict) (k : String), k ∈ gs →
      dictLookup (gs.foldl (fun d g => dictInsert d g g) d) k = some k by
    exact h genes [] g hg
  intro gs
  induction gs with
  | nil => intro d k h; simp at h
  | cons x gs ih =>
      intro d k hk
      simp only [List.foldl_cons]
      rcases List.mem_cons.mp hk with he | hm
      · subst he
        exact selfDict_lookup_aux gs _ k (dictLookup_dictInsert_self d k k)
      · exact ih _ k hm

/-! ### Claim theorems -/

/-- C9 (confirmed): for every input file content, `leer_genes` returns only
non-empty tokens with surrounding whitespace stripped; when the content
contains at least one comma, both commas and newlines act as separators,
otherwise only newlines do, and empty tokens are dropped in both cases. -/
theorem C9_leer_genes (contenido : List Char) :
    (∀ t ∈ leer_genes contenido, t ≠ [] ∧ pyStrip t = t) ∧
    (contenido.contains ',' = true →
      leer_genes contenido =
        ((pySplitAny (fun c => c = ',' || c = '\n') contenido).map pyStrip).filter
          (fun t => !t.isEmpty)) ∧
    (contenido.contains ',' = false →
      leer_genes contenido =
        ((pySplitAny (fun c => c = '\n') contenido).map pyStrip).filter
          (fun t => !t.isEmpty)) := by
  refine ⟨?_, ?_, ?_⟩
  · intro t ht
    unfold leer_genes at ht
    by_cases hc : contenido.contains ',' = true
    · rw [if_pos hc] at ht
      exact mem_strip_filter ht
    · rw [if_neg hc] at ht
      exact mem_strip_filter ht
  · intro hc
    unfold leer_genes
    rw [if_pos hc]
    unfold pySplit
    rw [pySplitAny_map_comma]
  · intro hc
    unfold leer_genes
    rw [if_neg (by rw [hc]; simp)]
    rfl

/-- Witness for C9 at the comma-separated content `A,B\nC`. -/
theorem C9_leer_genes_witness :
    (['A'] ≠ [] ∧ pyStrip ['A'] = ['A']) ∧
    leer_genes ['A', ',', 'B', '\n', 'C'] =
      ((pySplitAny (fun c => c = ',' || c = '\n')
          ['A', ',', 'B', '\n', 'C']).map pyStrip).filter
        (fun t => !t.isEmpty) := by
  constructor
  · exact (C9_leer_genes ['A', ',', 'B', '\n', 'C']).1 ['A'] (by decide)
  · exact (C9_leer_genes ['A', ',', 'B', '\n', 'C']).2.1 (by decide)

/-- C2 (counterexample): when the first MyGene.info query raises, the
process does not terminate: validation returns normally with the input
treated as valid, and the run continues through enrichment and export to a
normal completion. -/
theorem C2_cex :
    validar_y_convertir_genes ["TP53"] mqExn =
      RunResult.returned ⟨["TP53"], [("TP53", "TP53")], [],
        ["No se pudo validar genes (sin conexión)"]⟩ ∧
    mainRun ["TP53"] mqExn (ProfileOutcome.ok none) =
      RunResult.returned (["TP53"],
        [("validacion_genes.csv",
          FileContent.validation [⟨"TP53", "TP53", "valido", "Validado"⟩])]) := by
  decide

/-- C2 (amended): if the first MyGene.info query fails, the process reports
the condition through a recorded warning and continues without validation,
returning every input as a valid identifier instead of terminating. -/
theorem C2_amended_thm (genes : List String) (mq : List String → QueryOutcome)
    (h : mq genes = QueryOutcome.exn) :
    validar_y_convertir_genes genes mq =
      RunResult.returned ⟨genes, selfDict genes, [],
        ["No se pudo validar genes (sin conexión)"]⟩ := by
  unfold validar_y_convertir_genes
  rw [h]

/-- Witness for the amended C2. -/
theorem C2_amended_witness :
    validar_y_convertir_genes ["BRCA1"] mqExn =
      RunResult.returned ⟨["BRCA1"], selfDict ["BRCA1"], [],
        ["No se pudo validar genes (sin conexión)"]⟩ :=
  C2_amended_thm ["BRCA1"] mqExn rfl

/-- C8 (confirmed): if the first MyGene.info query raises, validation
returns immediately with every input treated as validated — `validos` is
the input list, `mapping` sends each input identifier to itself,
`no_encontrados` is empty and a warning is recorded — and the pipeline
proceeds to enrichment with those unvalidated identifiers rather than
terminating. -/
theorem C8_exception_path (genes : List String) (mq : List String → QueryOutcome)
    (resp : ProfileOutcome) (h : mq genes = QueryOutcome.exn) :
    (∃ info : ValidacionInfo,
      validar_y_convertir_genes genes mq = RunResult.returned info ∧
      info.validos = genes ∧
      (∀ g ∈ genes, dictLookup info.mapping g = some g) ∧
      info.no_encontrados = [] ∧
      info.advertencias = ["No se pudo validar genes (sin conexión)"]) ∧
    (∃ files, mainRun genes mq resp = RunResult.returned (genes, files)) := by
  have hval : validar_y_convertir_genes genes mq =
      RunResult.returned ⟨genes, selfDict genes, [],
        ["No se pudo validar genes (sin conexión)"]⟩ := by
    unfold validar_y_convertir_genes
    rw [h]
  constructor
  · refine ⟨⟨genes, selfDict genes, [],
      ["No se pudo validar genes (sin conexión)"]⟩, hval, rfl, ?_, rfl, rfl⟩
    intro g hg
    exact selfDict_lookup genes g hg
  · refine ⟨exportar_resultados (analizar_genes resp)
      ⟨genes, selfDict genes, [], ["No se pudo validar genes (sin conexión)"]⟩, ?_⟩
    unfold mainRun
    rw [hval]

/-- Witness for C8. -/
theorem C8_exception_path_witness :
    ∃ files, mainRun ["COX4I2"] mqExn (ProfileOutcome.ok none) =
      RunResult.returned (["COX4I2"], files) :=
  (C8_exception_path ["COX4I2"] mqExn (ProfileOutcome.ok none) rfl).2

/-- C7 (confirmed): the command line accepts exactly one of a file path or
an inline identifier list — the two are mutually exclusive and one is
required — and when not given, the output directory defaults to `results`
and the organism code defaults to `hsapiens`. -/
theorem C7_cli (a : CmdArgs) :
    ((∃ p, parse_args a = Except.ok p) ↔ (a.input.isSome ≠ a.genes.isSome)) ∧
    (∀ p, parse_args a = Except.ok p →
      p.input = a.input ∧ p.genes = a.genes ∧
      p.output = a.output.getD "results" ∧
      p.organism = a.organism.getD "hsapiens") := by
  obtain ⟨i, g, o, org⟩ := a
  rcases i with _ | i <;> rcases g with _ | g
  · exact ⟨by simp [parse_args], by intro p hp; simp [parse_args] at hp⟩
  · refine ⟨by simp [parse_args], ?_⟩
    intro p hp
    simp only [parse_args, Except.ok.injEq] at hp
    subst hp
    exact ⟨rfl, rfl, rfl, rfl⟩
  · refine ⟨by simp [parse_args], ?_⟩
    intro p hp
    simp only [parse_args, Except.ok.injEq] at hp
    subst hp
    exact ⟨rfl, rfl, rfl, rfl⟩
  · exact ⟨by simp [parse_args], by intro p hp; simp [parse_args] at hp⟩

/-- Witness for C7: a file path alone is accepted and the defaults apply. -/
theorem C7_cli_witness :
    (∃ p, parse_args ⟨some "genes.txt", none, none, none⟩ = Except.ok p) ∧
    ∀ p, parse_args ⟨some "genes.txt", none, none, none⟩ = Except.ok p →
      p.output = "results" ∧ p.organism = "hsapiens" := by
  have h := C7_cli ⟨some "genes.txt", none, none, none⟩
  refine ⟨h.1.mpr (by decide), ?_⟩
  intro p hp
  have hconc := h.2 p hp
  exact ⟨hconc.2.2.1, hconc.2.2.2⟩

/-- C6 (confirmed): a non-empty dataframe returned by the enrichment
service is passed through `analizar_genes` unchanged and written verbatim
— same rows, same cells — as `resultados_completos.csv` by the export
stage of a run. -/
theorem C6_passthrough (df : List Row) (info : ValidacionInfo)
    (genes : List String) (mq : List String → QueryOutcome)
    (hdf : df ≠ [])
    (hval : validar_y_convertir_genes genes mq = RunResult.returned info) :
    analizar_genes (ProfileOutcome.ok (some df)) = df ∧
    mainRun genes mq (ProfileOutcome.ok (some df)) =
      RunResult.returned (info.validos, exportar_resultados df info) ∧
    ("resultados_completos.csv", FileContent.table df) ∈
      exportar_resultados df info := by
  have hemp : df.isEmpty = false := by
    cases df with
    | nil => exact absurd rfl hdf
    | cons r rest => rfl
  have han : analizar_genes (ProfileOutcome.ok (some df)) = df := by
    show (if df.isEmpty = true then [] else df) = df
    rw [hemp]
    simp
  refine ⟨han, ?_, ?_⟩
  · unfold mainRun
    rw [hval, han]
  · simp only [exportar_resultados, hemp]
    simp

/-- Witness for C6. -/
theorem C6_passthrough_witness :
    ("resultados_completos.csv", FileContent.table dfGO) ∈
      exportar_resultados dfGO ⟨["TP53"], [("TP53", "TP53")], [], []⟩ :=
  (C6_passthrough dfGO ⟨["TP53"], [("TP53", "TP53")], [], []⟩ ["TP53"] mqResuelve
    (by decide) (by decide)).2.2

/-- C10 (confirmed): when the enrichment call raises an exception, returns
`None`, or returns no significant terms, `analizar_genes` yields the empty
dataframe, and the export stage writes the validation CSV and nothing
else, with the run returning normally. -/
theorem C10_empty_results (genes : List String) (mq : List String → QueryOutcome)
    (resp : ProfileOutcome) (info : ValidacionInfo)
    (hresp : resp = ProfileOutcome.exn ∨ resp = ProfileOutcome.ok none ∨
      resp = ProfileOutcome.ok (some []))
    (hval : validar_y_convertir_genes genes mq = RunResult.returned info) :
    analizar_genes resp = [] ∧
    mainRun genes mq resp =
      RunResult.returned (info.validos,
        [("validacion_genes.csv", FileContent.validation (valRows info))]) := by
  have han : analizar_genes resp = [] := by
    rcases hresp with h | h | h <;> subst h <;> rfl
  refine ⟨han, ?_⟩
  unfold mainRun
  rw [hval, han]
  rfl

/-- Witness for C10 at an enrichment exception. -/
theorem C10_empty_results_witness :
    analizar_genes ProfileOutcome.exn = [] ∧
    mainRun ["TP53"] mqResuelve ProfileOutcome.exn =
      RunResult.returned (["TP53"],
        [("validacion_genes.csv",
          FileContent.validation
            (valRows ⟨["TP53"], [("TP53", "TP53")], [], []⟩))]) :=
  C10_empty_results ["TP53"] mqResuelve ProfileOutcome.exn
    ⟨["TP53"], [("TP53", "TP53")], [], []⟩ (Or.inl rfl) (by decide)

set_option maxHeartbeats 1000000 in
theorem exportar_files (df : List Row) (info : ValidacionInfo) :
    "validacion_genes.csv" ∈ (exportar_resultados df info).map Prod.fst ∧
    (df ≠ [] →
      "resultados_completos.csv" ∈ (exportar_resultados df info).map Prod.fst ∧
      "resultados_completos.xlsx" ∈ (exportar_resultados df info).map Prod.fst) ∧
    ("GO_BP_resultados.csv" ∈ (exportar_resultados df info).map Prod.fst ↔
      df.filter (fun r => r.source = "GO:BP") ≠ []) ∧
    ("KEGG_resultados.csv" ∈ (exportar_resultados df info).map Prod.fst ↔
      df.filter (fun r => r.source = "KEGG") ≠ []) ∧
    ("REAC_resultados.csv" ∈ (exportar_resultados df info).map Prod.fst ↔
      df.filter (fun r => r.source = "REAC") ≠ []) := by
  by_cases hdf : df = []
  · subst hdf
    simp [exportar_resultados]
  · have hemp : df.isEmpty = false := by
      cases df with
      | nil => exact absurd rfl hdf
      | cons r rest => rfl
    by_cases hGO : df.filter (fun r => r.source = "GO:BP") = [] <;>
      by_cases hKG : df.filter (fun r => r.source = "KEGG") = [] <;>
        by_cases hRE : df.filter (fun r => r.source = "REAC") = [] <;>
          simp [exportar_resultados, bases_datos, hemp, hdf, hGO, hKG, hRE,
            List.isEmpty_iff] <;>
          simp_all [List.filter_eq_nil_iff]

/-- C5 (counterexample): a run that completes successfully with an
enrichment result containing only `GO:BP` rows writes neither
`KEGG_resultados.csv` nor `REAC_resultados.csv`, refuting the claim that
every successful run produces all the listed artifacts. -/
theorem C5_cex :
    mainRun ["TP53"] mqResuelve (ProfileOutcome.ok (some dfGO)) =
      RunResult.returned (["TP53"],
        [("validacion_genes.csv", FileContent.validation
            [⟨"TP53", "TP53", "valido", "Validado"⟩]),
         ("resultados_completos.csv", FileContent.table dfGO),
         ("resultados_completos.xlsx", FileContent.table dfGO),
         ("GO_BP_resultados.csv", FileContent.table dfGO)]) ∧
    "KEGG_resultados.csv" ∉
      (exportar_resultados dfGO
        ⟨["TP53"], [("TP53", "TP53")], [], []⟩).map Prod.fst ∧
    "REAC_resultados.csv" ∉
      (exportar_resultados dfGO
        ⟨["TP53"], [("TP53", "TP53")], [], []⟩).map Prod.fst := by
  decide

/-- C5 (amended): every successful run writes the validation CSV
(`validacion_genes.csv`); when the enrichment result set is non-empty it
also writes the combined CSV and spreadsheet (`resultados_completos.csv`
and `resultados_completos.xlsx`); and each per-database CSV
(`GO_BP_resultados.csv`, `KEGG_resultados.csv`, `REAC_resultados.csv`) is
written exactly when the result set contains at least one row from that
source database. -/
theorem C5_amended_thm (genes : List String) (mq : List String → QueryOutcome)
    (resp : ProfileOutcome) (vs : List String)
    (files : List (String × FileContent))
    (h : mainRun genes mq resp = RunResult.returned (vs, files)) :
    "validacion_genes.csv" ∈ files.map Prod.fst ∧
    (analizar_genes resp ≠ [] →
      "resultados_completos.csv" ∈ files.map Prod.fst ∧
      "resultados_completos.xlsx" ∈ files.map Prod.fst) ∧
    ("GO_BP_resultados.csv" ∈ files.map Prod.fst ↔
      (analizar_genes resp).filter (fun r => r.source = "GO:BP") ≠ []) ∧
    ("KEGG_resultados.csv" ∈ files.map Prod.fst ↔
      (analizar_genes resp).filter (fun r => r.source = "KEGG") ≠ []) ∧
    ("REAC_resultados.csv" ∈ files.map Prod.fst ↔
      (analizar_genes resp).filter (fun r => r.source = "REAC") ≠ []) := by
  unfold mainRun at h
  cases hv : validar_y_convertir_genes genes mq with
  | exited c =>
      rw [hv] at h
      simp at h
  | returned info =>
      rw [hv] at h
      simp only [RunResult.returned.injEq, Prod.mk.injEq] at h
      obtain ⟨_, hfiles⟩ := h
      subst hfiles
      exact exportar_files (analizar_genes resp) info

/-- Witness for the amended C5: with one GO row and one KEGG row, the KEGG
per-database CSV is written. -/
theorem C5_amended_witness :
    "KEGG_resultados.csv" ∈
      ((exportar_resultados (analizar_genes (ProfileOutcome.ok (some dfGOKEGG)))
          ⟨["TP53"], [("TP53", "TP53")], [], []⟩).map Prod.fst) := by
  have h := C5_amended_thm ["TP53"] mqResuelve (ProfileOutcome.ok (some dfGOKEGG))
    ["TP53"]
    (exportar_resultados (analizar_genes (ProfileOutcome.ok (some dfGOKEGG)))
      ⟨["TP53"], [("TP53", "TP53")], [], []⟩)
    (by decide)
  exact h.2.2.2.1.mpr (by decide)

/-- C1 (counterexample): with a duplicated input identifier and completed
responses that resolve one occurrence and fail the other, the identifier
`A` ends up both as a key of `mapping` and in `no_encontrados`, so the
returned data is not a partition of the inputs. -/
theorem C1_cex :
    ¬ (∀ info : ValidacionInfo,
        validar_y_convertir_genes ["A", "A"] mqC1 = RunResult.returned info →
        ∀ g ∈ (["A", "A"] : List String),
          ((dictLookup info.mapping g).isSome ∧ g ∉ info.no_encontrados) ∨
          ((dictLookup info.mapping g).isNone ∧ g ∈ info.no_encontrados)) := by
  intro h
  have hc := h ⟨["S"], [("A", "S")], ["A"], [msgOf "A"]⟩ (by decide) "A" (by decide)
  revert hc
  decide

/-- C1 (amended): for a list of DISTINCT input identifiers and completed
lookup responses carrying one entry per query (lengths aligned), a
returning call of `validar_y_convertir_genes` partitions the inputs: each
input identifier is either a key of `mapping` — mapped to a symbol that is
also listed in `validos` — or a member of `no_encontrados`, never both and
never neither; and every mapping key and unresolved entry is an input. -/
theorem C1_partition (genes : List String) (mq : List String → QueryOutcome)
    (out1 out2 : List QueryResult) (info : ValidacionInfo)
    (hnd : genes.Nodup)
    (hm1 : mq genes = QueryOutcome.ok out1)
    (h1 : out1.length = genes.length)
    (hm2 : mq (variantesMT (retryOf (genes.zip out1))) = QueryOutcome.ok out2)
    (h2 : out2.length = (retryOf (genes.zip out1)).length)
    (hres : validar_y_convertir_genes genes mq = RunResult.returned info) :
    (∀ g ∈ genes,
      (∃ s, dictLookup info.mapping g = some s ∧ s ∈ info.validos ∧
        g ∉ info.no_encontrados) ∨
      (dictLookup info.mapping g = none ∧ g ∈ info.no_encontrados)) ∧
    (∀ q ∈ info.mapping, q.1 ∈ genes) ∧
    (∀ g ∈ info.no_encontrados, g ∈ genes) := by
  obtain ⟨hV, hM, hNE, hAD, hne⟩ :=
    validar_returned_inv genes mq out1 out2 info hm1 hm2 h2 hres
  obtain ⟨hMeq, hMnd⟩ := mapping_struct genes out1 out2 hnd h1 h2
  rw [hMeq] at hM
  have hfst1 : (genes.zip out1).map Prod.fst = genes :=
    List.map_fst_zip genes out1 (le_of_eq h1.symm)
  have hfst2 : ((retryOf (genes.zip out1)).zip out2).map Prod.fst
      = retryOf (genes.zip out1) :=
    List.map_fst_zip _ out2 (le_of_eq h2.symm)
  have hretrynd : (retryOf (genes.zip out1)).Nodup :=
    List.Nodup.sublist (retryOf_sublist _) (by rw [hfst1]; exact hnd)
  refine ⟨?_, ?_, ?_⟩
  · intro g hg
    obtain ⟨r, hgr⟩ := zip_mem_of_mem h1 hg
    rcases hres1 : resolved1 r with _ | s
    · have hgret : g ∈ retryOf (genes.zip out1) := mem_retryOf.mpr ⟨r, hgr, hres1⟩
      obtain ⟨r2, hgr2⟩ := zip_mem_of_mem h2 hgret
      rcases hres2 : resolved2 r2 with _ | s2
      · right
        constructor
        · rw [hM]
          apply dictLookup_eq_none.mpr
          rw [show keys (pairs1 (genes.zip out1) ++
              pairs2 ((retryOf (genes.zip out1)).zip out2))
              = keys (pairs1 (genes.zip out1)) ++
                keys (pairs2 ((retryOf (genes.zip out1)).zip out2)) by
            simp [keys]]
          intro hc
          rcases List.mem_append.mp hc with hc1 | hc2
          · obtain ⟨r', s', hgr', hres1'⟩ := mem_keys_pairs1.mp hc1
            have heq : r = r' := zip_mem_uniq hnd hgr hgr'
            rw [← heq, hres1] at hres1'
            exact Option.noConfusion hres1'
          · obtain ⟨r2', s2', hgr2', hres2'⟩ := mem_keys_pairs2.mp hc2
            have heq : r2 = r2' := zip_mem_uniq hretrynd hgr2 hgr2'
            rw [← heq, hres2] at hres2'
            exact Option.noConfusion hres2'
        · rw [hNE]
          exact mem_fails2.mpr ⟨r2, hgr2, hres2⟩
      · left
        have hp2 : (g, s2) ∈ pairs2 ((retryOf (genes.zip out1)).zip out2) :=
          mem_pairs2.mpr ⟨r2, hgr2, hres2⟩
        refine ⟨s2, ?_, ?_, ?_⟩
        · rw [hM]
          exact dictLookup_of_mem_of_nodup hMnd (List.mem_append.mpr (Or.inr hp2))
        · rw [hV]
          exact List.mem_append.mpr (Or.inr (mem_sym2_of_pairs2 hp2))
        · rw [hNE]
          intro hc
          obtain ⟨r2', hgr2', hres2'⟩ := mem_fails2.mp hc
          have heq : r2 = r2' := zip_mem_uniq hretrynd hgr2 hgr2'
          rw [← heq, hres2] at hres2'
          exact Option.noConfusion hres2'
    · left
      have hp1 : (g, s) ∈ pairs1 (genes.zip out1) := mem_pairs1.mpr ⟨r, hgr, hres1⟩
      refine ⟨s, ?_, ?_, ?_⟩
      · rw [hM]
        exact dictLookup_of_mem_of_nodup hMnd (List.mem_append.mpr (Or.inl hp1))
      · rw [hV]
        exact List.mem_append.mpr (Or.inl (mem_sym1_of_pairs1 hp1))
      · rw [hNE]
        intro hc
        obtain ⟨r2', hgr2', hres2'⟩ := mem_fails2.mp hc
        have hgret : g ∈ retryOf (genes.zip out1) := zip_mem_fst hgr2'
        obtain ⟨r', hgr', hres1'⟩ := mem_retryOf.mp hgret
        have heq : r = r' := zip_mem_uniq hnd hgr hgr'
        rw [← heq, hres1] at hres1'
        exact Option.noConfusion hres1'
  · intro q hq
    rw [hM] at hq
    rcases List.mem_append.mp hq with hq1 | hq2
    · have hk : q.1 ∈ keys (pairs1 (genes.zip out1)) :=
        List.mem_map_of_mem Prod.fst hq1
      have hk2 := (keys_pairs1_sublist _).subset hk
      rw [hfst1] at hk2
      exact hk2
    · have hk : q.1 ∈ keys (pairs2 ((retryOf (genes.zip out1)).zip out2)) :=
        List.mem_map_of_mem Prod.fst hq2
      have hk2 := (keys_pairs2_sublist _).subset hk
      rw [hfst2] at hk2
      have hk3 := (retryOf_sublist _).subset hk2
      rw [hfst1] at hk3
      exact hk3
  · intro g hgne
    rw [hNE] at hgne
    have hk2 := (fails2_sublist _).subset hgne
    rw [hfst2] at hk2
    have hk3 := (retryOf_sublist _).subset hk2
    rw [hfst1] at hk3
    exact hk3

/-- Witness for the amended C1: `G1` resolves directly, `G2` resolves via
its mitochondrial variant, and the partition holds at `G2`. -/
theorem C1_partition_witness :
    (∃ s, dictLookup [("G1", "SYM1"), ("G2", "MT-G2")] "G2" = some s ∧
      s ∈ ["SYM1", "MT-G2"] ∧ "G2" ∉ ([] : List String)) ∨
    (dictLookup [("G1", "SYM1"), ("G2", "MT-G2")] "G2" = none ∧
      "G2" ∈ ([] : List String)) :=
  (C1_partition ["G1", "G2"] mqC1w
    [⟨none, some "SYM1"⟩, ⟨some true, none⟩] [⟨none, some "MT-G2"⟩]
    ⟨["SYM1", "MT-G2"], [("G1", "SYM1"), ("G2", "MT-G2")], [], []⟩
    (by decide) (by decide) (by decide) (by decide) (by decide) (by decide)).1
    "G2" (by decide)

/-- C3 (confirmed): with both lookups completed, every input occurrence
that resolves in neither the direct lookup nor the `MT-` retry is recorded
in `no_encontrados`; the gene set handed to the enrichment query is exactly
the list of symbols of the occurrences that resolved (so unresolved inputs
contribute nothing to it); and the run reaches the enrichment and export
stages if and only if at least one occurrence resolved, exiting with code 1
when none did. -/
theorem C3_unresolved (genes : List String) (mq : List String → QueryOutcome)
    (out1 out2 : List QueryResult)
    (hm1 : mq genes = QueryOutcome.ok out1)
    (h1 : out1.length = genes.length)
    (hm2 : mq (variantesMT (retryOf (genes.zip out1))) = QueryOutcome.ok out2)
    (h2 : out2.length = (retryOf (genes.zip out1)).length) :
    (∀ g r r2, (g, r) ∈ genes.zip out1 → resolved1 r = none →
      (g, r2) ∈ (retryOf (genes.zip out1)).zip out2 → resolved2 r2 = none →
      ∀ info, validar_y_convertir_genes genes mq = RunResult.returned info →
        g ∈ info.no_encontrados) ∧
    (∀ info, validar_y_convertir_genes genes mq = RunResult.returned info →
      info.validos =
        sym1 (genes.zip out1) ++ sym2 ((retryOf (genes.zip out1)).zip out2)) ∧
    (∀ resp : ProfileOutcome,
      (mainRun genes mq resp = RunResult.exited 1 ↔
        sym1 (genes.zip out1) ++ sym2 ((retryOf (genes.zip out1)).zip out2)
          = []) ∧
      ((∃ files, mainRun genes mq resp =
          RunResult.returned
            (sym1 (genes.zip out1) ++
              sym2 ((retryOf (genes.zip out1)).zip out2), files)) ↔
        sym1 (genes.zip out1) ++ sym2 ((retryOf (genes.zip out1)).zip out2)
          ≠ [])) := by
  have hok := validar_ok genes mq out1 out2 hm1 hm2 h2
  refine ⟨?_, ?_, ?_⟩
  · intro g r r2 hgr hres1 hgr2 hres2 info hret
    obtain ⟨_, _, hNE, _, _⟩ :=
      validar_returned_inv genes mq out1 out2 info hm1 hm2 h2 hret
    rw [hNE]
    exact mem_fails2.mpr ⟨r2, hgr2, hres2⟩
  · intro info hret
    exact (validar_returned_inv genes mq out1 out2 info hm1 hm2 h2 hret).1
  · intro resp
    unfold mainRun
    rw [hok]
    cases hVemp : (sym1 (genes.zip out1) ++
        sym2 ((retryOf (genes.zip out1)).zip out2)).isEmpty
    · have hne : ¬(sym1 (genes.zip out1) ++
          sym2 ((retryOf (genes.zip out1)).zip out2) = []) := by
        intro hh
        rw [hh] at hVemp
        simp at hVemp
      simp [hne]
    · have hnil := List.isEmpty_iff.mp hVemp
      simp [hnil]

/-- Witness for C3: `G1` resolves, `G2` resolves in neither pass and lands
in `no_encontrados`, and the run proceeds with the resolved set. -/
theorem C3_unresolved_witness :
    "G2" ∈ (["G2"] : List String) ∧
    ∃ files, mainRun ["G1", "G2"] mqC3w (ProfileOutcome.ok none) =
      RunResult.returned
        (sym1 (["G1", "G2"].zip [⟨none, some "SYM1"⟩, ⟨some true, none⟩]) ++
          sym2 ((retryOf (["G1", "G2"].zip
            [⟨none, some "SYM1"⟩, ⟨some true, none⟩])).zip
            [⟨some true, none⟩]),
         files) := by
  have h := C3_unresolved ["G1", "G2"] mqC3w
    [⟨none, some "SYM1"⟩, ⟨some true, none⟩] [⟨some true, none⟩]
    (by decide) (by decide) (by decide) (by decide)
  constructor
  · exact h.1 "G2" ⟨some true, none⟩ ⟨some true, none⟩ (by decide) (by decide)
      (by decide) (by decide)
      ⟨["SYM1"], [("G1", "SYM1")], ["G2"], [msgOf "G2"]⟩ (by decide)
  · exact (h.2.2 (ProfileOutcome.ok none)).2.mpr (by decide)

/-- C4 (confirmed; stated for distinct identifiers and aligned responses):
every input identifier whose first result is reported not found or comes
back without a symbol is retried in a second batch query built from
exactly the string `MT-` concatenated with the original identifier; and
when its retry entry carries a symbol (and no not-found marker), the
original identifier is mapped to that returned symbol and the symbol is
counted among the validated genes. -/
theorem C4_retry (genes : List String) (mq : List String → QueryOutcome)
    (out1 out2 : List QueryResult) (g : String) (r r2 : QueryResult) (s : String)
    (hnd : genes.Nodup)
    (hm1 : mq genes = QueryOutcome.ok out1)
    (h1 : out1.length = genes.length)
    (hm2 : mq (variantesMT (retryOf (genes.zip out1))) = QueryOutcome.ok out2)
    (h2 : out2.length = (retryOf (genes.zip out1)).length)
    (hgr : (g, r) ∈ genes.zip out1)
    (hres1 : resolved1 r = none)
    (hgr2 : (g, r2) ∈ (retryOf (genes.zip out1)).zip out2)
    (hnf : r2.notfound = none) (hsym : r2.symbol = some s) :
    consultasRealizadas genes mq =
      [genes, (retryOf (genes.zip out1)).map (fun x => "MT-" ++ x)] ∧
    ("MT-" ++ g) ∈ variantesMT (retryOf (genes.zip out1)) ∧
    ∃ info, validar_y_convertir_genes genes mq = RunResult.returned info ∧
      dictLookup info.mapping g = some s ∧ s ∈ info.validos := by
  have hres2 : resolved2 r2 = some s := by
    obtain ⟨nf, sy⟩ := r2
    simp only at hnf hsym
    subst hnf
    subst hsym
    rfl
  have hgret : g ∈ retryOf (genes.zip out1) := zip_mem_fst hgr2
  have hretne : ¬ (retryOf (genes.zip out1)).isEmpty = true := by
    intro hnil
    rw [List.isEmpty_iff.mp hnil] at hgret
    simp at hgret
  have hst1 : primeraPasadaAux ([], [], []) (genes.zip out1)
      = (sym1 (genes.zip out1), insertAll [] (pairs1 (genes.zip out1)),
        retryOf (genes.zip out1)) := by
    simpa using primera_char (genes.zip out1) ([], [], [])
  have hp2 : (g, s) ∈ pairs2 ((retryOf (genes.zip out1)).zip out2) :=
    mem_pairs2.mpr ⟨r2, hgr2, hres2⟩
  have hsym2 : s ∈ sym2 ((retryOf (genes.zip out1)).zip out2) :=
    mem_sym2_of_pairs2 hp2
  have hVne : ¬(sym1 (genes.zip out1) ++
      sym2 ((retryOf (genes.zip out1)).zip out2) = []) := by
    intro hh
    have hmem : s ∈ sym1 (genes.zip out1) ++
        sym2 ((retryOf (genes.zip out1)).zip out2) :=
      List.mem_append.mpr (Or.inr hsym2)
    rw [hh] at hmem
    simp at hmem
  refine ⟨?_, List.mem_map_of_mem _ hgret, ?_⟩
  · simp only [consultasRealizadas, hm1, hst1]
    rw [if_neg hretne]
    simp [variantesMT]
  · have hok := validar_ok genes mq out1 out2 hm1 hm2 h2
    have hemp : (sym1 (genes.zip out1) ++
        sym2 ((retryOf (genes.zip out1)).zip out2)).isEmpty = false := by
      cases hx : (sym1 (genes.zip out1) ++
          sym2 ((retryOf (genes.zip out1)).zip out2)).isEmpty
      · rfl
      · exact absurd (List.isEmpty_iff.mp hx) hVne
    rw [hemp] at hok
    simp only [Bool.false_eq_true, if_false] at hok
    obtain ⟨hMeq, hMnd⟩ := mapping_struct genes out1 out2 hnd h1 h2
    refine ⟨⟨sym1 (genes.zip out1) ++
        sym2 ((retryOf (genes.zip out1)).zip out2),
      insertAll (insertAll [] (pairs1 (genes.zip out1)))
        (pairs2 ((retryOf (genes.zip out1)).zip out2)),
      fails2 ((retryOf (genes.zip out1)).zip out2),
      (fails2 ((retryOf (genes.zip out1)).zip out2)).map msgOf⟩,
      hok, ?_, ?_⟩
    · show dictLookup (insertAll (insertAll [] (pairs1 (genes.zip out1)))
        (pairs2 ((retryOf (genes.zip out1)).zip out2))) g = some s
      rw [hMeq]
      exact dictLookup_of_mem_of_nodup hMnd (List.mem_append.mpr (Or.inr hp2))
    · show s ∈ sym1 (genes.zip out1) ++
        sym2 ((retryOf (genes.zip out1)).zip out2)
      exact List.mem_append.mpr (Or.inr hsym2)

/-- Witness for C4: `ND1` is not found directly, is retried as `MT-ND1`,
and is mapped to the symbol returned by the retry. -/
theorem C4_retry_witness :
    consultasRealizadas ["ND1"] mqC4w =
      [["ND1"], (retryOf (["ND1"].zip [⟨some true, none⟩])).map
        (fun x => "MT-" ++ x)] ∧
    ("MT-" ++ "ND1") ∈ variantesMT (retryOf (["ND1"].zip [⟨some true, none⟩])) ∧
    ∃ info, validar_y_convertir_genes ["ND1"] mqC4w = RunResult.returned info ∧
      dictLookup info.mapping "ND1" = some "MT-ND1" ∧
      "MT-ND1" ∈ info.validos :=
  C4_retry ["ND1"] mqC4w [⟨some true, none⟩] [⟨none, some "MT-ND1"⟩]
    "ND1" ⟨some true, none⟩ ⟨none, some "MT-ND1"⟩ "MT-ND1"
    (by decide) (by decide) (by decide) (by decide) (by decide)
    (by decide) (by decide) (by decide) (by decide) (by decide)
